import Mathlib

/-!
Shallow embedding of the layout-reconstruction core of the smartocr backend
(files `app/docx_service.py` and `app/docx_text_service.py`).

Modelling conventions:
* A Python string is modelled as a list of characters (`PyStr`); `str.strip`
  becomes `pyStrip`.
* Python integers are `Int`; Python floats are modelled by exact rationals.
* The pytesseract `image_to_data` dictionary is modelled as a list of
  `RawWord` records (one per word index), with the confidence value already
  parsed to an integer (a parse failure stands for the value -1, exactly the
  value the source assigns on a parse exception).
* Python dicts (which keep insertion order) are modelled as association
  lists that append unseen keys at the end.
* The python-docx `Document` is modelled as the list of emitted elements;
  file serialization is out of scope.
-/

namespace SmartOCR

/-- Python string as a list of characters. -/
abbrev PyStr := List Char

/-- Python `str.strip()`: drop whitespace from both ends. -/
def pyStrip (s : PyStr) : PyStr :=
  List.reverse (List.dropWhile Char.isWhitespace (List.reverse (List.dropWhile Char.isWhitespace s)))

namespace DocxService

/-- Constant `MIN_FONT_SIZE = 9` from the config block of `docx_service.py`. -/
def MIN_FONT_SIZE : ℚ := 9

/-- Constant `MAX_FONT_SIZE = 28` from the config block of `docx_service.py`. -/
def MAX_FONT_SIZE : ℚ := 28

/-- Model of `_px_to_pt(px, dpi=300)`: `inches = px / dpi`, `pt = inches * 72`,
then `max(MIN_FONT_SIZE, min(MAX_FONT_SIZE, pt))`.  The dpi argument is
explicit here; every call site of the source uses the default `300`. -/
def px_to_pt (px dpi : ℚ) : ℚ :=
  max MIN_FONT_SIZE (min MAX_FONT_SIZE (px / dpi * 72))

/-- Model of `_is_heading_text(text, height_ratio)` from `docx_service.py`:
strip, reject empty or longer than 100 characters, accept on
`height_ratio >= 1.5`, otherwise accept a short line with enough upper-case
letters (`upper_count >= max(3, int(len(text) * 0.3))`, modelled with exact
rational floor). -/
def is_heading_text (text : PyStr) (height_ratio : ℚ) : Bool :=
  let t := pyStrip text
  if t = [] ∨ t.length > 100 then false
  else if height_ratio ≥ 3/2 then true
  else if t.length ≤ 60 then
    let upper_count := (t.filter Char.isUpper).length
    if upper_count ≥ max 3 (((t.length : ℚ) * (3/10)).floor.toNat) then true
    else false
  else false

/-- First branch of `_is_bullet_or_numbered`: the stripped text starts with
one of the bullet glyphs of `text.startswith(("•", "-", "·", "*", "○", "■", "►"))`.
This predicate takes the already stripped text. -/
def bullet_start (t : PyStr) : Bool :=
  match t with
  | [] => false
  | c :: _ =>
      c = '•' || c = '-' || c = '·' || c = '*' || c = '○' || c = '■' || c = '►'

/-- Second branch of `_is_bullet_or_numbered`: a digit followed by `.`, `)`
or a space, or two digits followed by one of those.  This predicate takes
the already stripped text. -/
def numbered_start (t : PyStr) : Bool :=
  match t with
  | c0 :: c1 :: rest =>
      c0.isDigit &&
        ((c1 = '.' || c1 = ')' || c1 = ' ') ||
          (match rest with
           | c2 :: _ => c1.isDigit && (c2 = '.' || c2 = ')' || c2 = ' ')
           | [] => false))
  | _ => false

/-- The string `"bullet"` returned by `_is_bullet_or_numbered`. -/
def bulletKind : PyStr := "bullet".toList

/-- The string `"number"` returned by `_is_bullet_or_numbered`. -/
def numberKind : PyStr := "number".toList

/-- Model of `_is_bullet_or_numbered(text)`: strip, check the bullet glyphs first,
then the numbered prefix, else `(False, "")`. -/
def is_bullet_or_numbered (text : PyStr) : Bool × PyStr :=
  let t := pyStrip text
  if bullet_start t then (true, bulletKind)
  else if numbered_start t then (true, numberKind)
  else (false, [])

/-- One word record of the pytesseract `image_to_data` dictionary, as read
by the loop of `_extract_lines_with_format`. -/
structure RawWord where
  text : PyStr
  conf : Int
  block : Nat
  par : Nat
  line : Nat
  left : Int
  top : Int
  width : Int
  height : Int
deriving DecidableEq

/-- The `(block, par, line)` key of `lines_dict`. -/
abbrev HKey := Nat × Nat × Nat

/-- The grouping key `(data["block_num"][i], data["par_num"][i], data["line_num"][i])`. -/
def rawKey (w : RawWord) : HKey := (w.block, w.par, w.line)

/-- The filter of the grouping loop: a record survives unless its stripped
text is empty or its confidence is negative (`if not txt or conf < 0: continue`). -/
def keepWord (w : RawWord) : Bool :=
  decide (¬ (pyStrip w.text = [] ∨ w.conf < 0))

/-- The `word_data` dict appended to `lines_dict[key]["words"]`. -/
structure WordData where
  text : PyStr
  left : Int
  top : Int
  width : Int
  height : Int
  conf : Int
deriving DecidableEq

/-- Builds the `word_data` dict from a raw record (text stripped). -/
def mkWordData (w : RawWord) : WordData :=
  ⟨pyStrip w.text, w.left, w.top, w.width, w.height, w.conf⟩

/-- The per-key accumulator of `lines_dict`: the word list plus the running
`min left`, `min top`, `max height`. -/
structure LineAcc where
  words : List WordData
  left : Int
  top : Int
  height : Int
deriving DecidableEq

/-- One step of `lines_dict` maintenance for a surviving word: if the key is
absent, a fresh entry seeded from the record is appended at the end of the
dict (insertion order); then the word is appended and the mins and max are
updated.  For a fresh entry the update with the seeding record itself is the
identity, so both cases are fused here. -/
def addWord : List (HKey × LineAcc) → HKey → WordData → List (HKey × LineAcc)
  | [], k, wd => [(k, ⟨[wd], wd.left, wd.top, wd.height⟩)]
  | (k', acc) :: rest, k, wd =>
      if k' = k then
        (k', ⟨acc.words ++ [wd], min acc.left wd.left, min acc.top wd.top,
              max acc.height wd.height⟩) :: rest
      else (k', acc) :: addWord rest k wd

/-- One iteration of the grouping loop of `_extract_lines_with_format`:
discard the record if its stripped text is empty or its confidence is
negative, otherwise add it to `lines_dict` under its hierarchy key. -/
def groupStep (d : List (HKey × LineAcc)) (w : RawWord) : List (HKey × LineAcc) :=
  if pyStrip w.text = [] ∨ w.conf < 0 then d
  else addWord d (rawKey w) (mkWordData w)

/-- The complete grouping loop: fold the raw records into `lines_dict`. -/
def groupWords (ws : List RawWord) : List (HKey × LineAcc) :=
  ws.foldl groupStep []

/-- Association-list lookup for `lines_dict`. -/
def lookupAcc : List (HKey × LineAcc) → HKey → Option LineAcc
  | [], _ => none
  | (k', a) :: rest, k => if k' = k then some a else lookupAcc rest k

/-- The word list stored under a key of `lines_dict` (empty if absent). -/
def wordsOf (d : List (HKey × LineAcc)) (k : HKey) : List WordData :=
  match lookupAcc d k with
  | some a => a.words
  | none => []

/-- The key column of `lines_dict`. -/
def keysOf (d : List (HKey × LineAcc)) : List HKey := d.map Prod.fst

/-- Model of `sorted(line_data["words"], key=lambda w: w["left"])`: a stable sort by
the left coordinate. -/
def sortWordsByLeft (ws : List WordData) : List WordData :=
  List.insertionSort (fun a b => a.left ≤ b.left) ws

/-- The separator chosen between two consecutive words: two spaces when the
gap `left - prev_right` exceeds `line_height * 1.2`, one space otherwise. -/
def sepFor (h pr left : Int) : PyStr :=
  if ((left - pr : Int) : ℚ) > (h : ℚ) * (6/5) then [' ', ' '] else [' ']

/-- One iteration of the word-joining loop: append the separator (when a
previous right edge exists) and the word text to `text_parts`, and advance
`prev_right` to `left + width`. -/
def assembleStep (h : Int) (st : List PyStr × Option Int) (w : WordData) :
    List PyStr × Option Int :=
  match st with
  | (parts, none) => (parts ++ [w.text], some (w.left + w.width))
  | (parts, some pr) => (parts ++ [sepFor h pr w.left] ++ [w.text], some (w.left + w.width))

/-- The word-joining phase for one line: sort the words by left, run the
joining loop, concatenate `text_parts` and strip; also returns the final
`prev_right`. -/
def assembleAcc (acc : LineAcc) : PyStr × Option Int :=
  let st := (sortWordsByLeft acc.words).foldl (assembleStep acc.height) ([], none)
  (pyStrip st.1.flatten, st.2)

/-- One assembled line before the page statistics are attached. -/
structure LineData where
  text : PyStr
  left : Int
  top : Int
  height : Int
  width : Int
deriving DecidableEq

/-- Builds the line dict appended to `lines` when the assembled text is
nonempty; the width is `prev_right - left if prev_right else 0` (Python
falsiness: both `None` and `0` give width `0`). -/
def lineOfAcc (acc : LineAcc) : Option LineData :=
  let st := assembleAcc acc
  if st.1 = [] then none
  else
    some ⟨st.1, acc.left, acc.top, acc.height,
          match st.2 with
          | some pr => if pr = 0 then 0 else pr - acc.left
          | none => 0⟩

/-- The line-building loop over `lines_dict.items()` in insertion order,
keeping only lines with nonempty assembled text. -/
def assembleLines (groups : List (HKey × LineAcc)) : List LineData :=
  groups.filterMap (fun kv => lineOfAcc kv.2)

/-- Model of `sorted(all_heights)[len(all_heights) // 2] if all_heights else 16`:
the page median height (`all_heights` is the height column of the kept
lines). -/
def medianHeightOf (hs : List Int) : Int :=
  match hs with
  | [] => 16
  | _ :: _ => (List.insertionSort (fun a b : Int => a ≤ b) hs).getD (hs.length / 2) 0

/-- One line after the metadata pass: `median_height` and `height_ratio`
attached. -/
structure FormattedLine where
  text : PyStr
  left : Int
  top : Int
  height : Int
  width : Int
  median_height : Int
  height_ratio : ℚ
deriving DecidableEq

/-- The metadata loop: attach the page median and the guarded ratio
`line["height"] / median_height if median_height > 0 else 1.0`. -/
def attachMedian (lds : List LineData) : List FormattedLine :=
  let m := medianHeightOf (lds.map (fun ld => ld.height))
  lds.map (fun ld =>
    ⟨ld.text, ld.left, ld.top, ld.height, ld.width, m,
     if 0 < m then (ld.height : ℚ) / (m : ℚ) else 1⟩)

/-- The sort key order of `lines.sort(key=lambda x: (x["top"], x["left"]))`:
lexicographic on `(top, left)`. -/
def lineLe (a b : FormattedLine) : Prop :=
  a.top < b.top ∨ (a.top = b.top ∧ a.left ≤ b.left)

instance : DecidableRel lineLe := fun a b => by
  unfold lineLe
  exact inferInstance

instance : IsTotal FormattedLine lineLe := by
  constructor
  intro a b
  unfold lineLe
  omega

instance : IsTrans FormattedLine lineLe := by
  constructor
  intro a b c hab hbc
  unfold lineLe at *
  omega

/-- Model of `lines.sort(key=lambda x: (x["top"], x["left"]))`: a stable sort
by the `(top, left)` key. -/
def sortLines (ls : List FormattedLine) : List FormattedLine :=
  List.insertionSort lineLe ls

/-- Model of `_extract_lines_with_format` from the OCR word records on: group the
words into lines, assemble the line texts, attach the page median and the
height ratio, and sort by `(top, left)`. -/
def extract_lines_with_format (ws : List RawWord) : List FormattedLine :=
  sortLines (attachMedian (assembleLines (groupWords ws)))

end DocxService

/-- A classification outcome used to compare the check orders of the two
services. -/
inductive TextClass where
  | bullet
  | number
  | plain
deriving DecidableEq

namespace DocxService

/-- Paragraph style tags selected by `_add_formatted_paragraph`
(`"List Bullet"`, `"List Number"`, `"Heading 2"`, `"Heading 3"`, default). -/
inductive ParaStyle where
  | listBullet
  | listNumber
  | heading2
  | heading3
  | body
deriving DecidableEq

/-- One emitted paragraph: style tag, optional space-before (points),
optional left indent (inches), the run text, the bold flag and the run font
size (points). -/
structure Paragraph where
  style : ParaStyle
  space_before : Option ℚ
  left_indent : Option ℚ
  text : PyStr
  bold : Bool
  font_size : ℚ
deriving DecidableEq

/-- The vertical-spacing branch of `_add_formatted_paragraph`: with a
previous line, `gap = line["top"] - (prev["top"] + prev["height"])`; when
`gap > median_h * 0.8` the paragraph receives
`space_before = min(12, max(3, gap / 5))` points, otherwise nothing; with no
previous line nothing is assigned. -/
def spaceBeforeOf (prev : Option FormattedLine) (line : FormattedLine) : Option ℚ :=
  match prev with
  | none => none
  | some p =>
      let gap : Int := line.top - (p.top + p.height)
      if (gap : ℚ) > (line.median_height : ℚ) * (4/5) then
        some (min 12 (max 3 ((gap : ℚ) / 5)))
      else none

/-- The character set of `text.lstrip("•-·*○■► ")`. -/
def bulletStripChars : List Char := ['•', '-', '·', '*', '○', '■', '►', ' ']

/-- The run text of `_add_formatted_paragraph`: a bullet line is normalized
to a canonical marker (`"• " + text.lstrip("•-·*○■► ").strip()`), any other
line is passed through. -/
def runTextOf (text : PyStr) : PyStr :=
  let r := is_bullet_or_numbered text
  if r.1 ∧ r.2 = bulletKind then
    '•' :: ' ' :: pyStrip (text.dropWhile (fun c => bulletStripChars.contains c))
  else text

/-- The style selection of `_add_formatted_paragraph`: list styles first,
then `"Heading 2"` when `height_ratio >= 1.5` else `"Heading 3"`, else the
default body style. -/
def styleOf (text : PyStr) (height_ratio : ℚ) : ParaStyle :=
  let r := is_bullet_or_numbered text
  if r.1 then (if r.2 = bulletKind then ParaStyle.listBullet else ParaStyle.listNumber)
  else if is_heading_text text height_ratio then
    (if height_ratio ≥ 3/2 then ParaStyle.heading2 else ParaStyle.heading3)
  else ParaStyle.body

/-- The indent branch: `indent_px = max(0, line["left"] - min_left)`,
`left_indent = min(1.5, indent_px / 200.0)`, applied only when positive and
the line is not a list item. -/
def indentOf (line : FormattedLine) (min_left : Int) (text : PyStr) : Option ℚ :=
  let indent_px : Int := max 0 (line.left - min_left)
  let left_indent : ℚ := min (3/2) ((indent_px : ℚ) / 200)
  if left_indent > 0 ∧ ¬ (is_bullet_or_numbered text).1 then some left_indent else none

/-- The run font size of `_add_formatted_paragraph`: a heading run gets
`min(18, max(12, font_size + 2))`, any other run `min(14, max(10, font_size))`,
where `font_size = _px_to_pt(height)`. -/
def fontSizeOf (text : PyStr) (line : FormattedLine) : ℚ :=
  let font_size := px_to_pt (line.height : ℚ) 300
  if is_heading_text text line.height_ratio then min 18 (max 12 (font_size + 2))
  else min 14 (max 10 font_size)

/-- Model of `_add_formatted_paragraph`: strip the line text, emit nothing when it is
empty, otherwise emit one paragraph whose fields are computed by the helper
definitions above (each mirrors one block of the source function). -/
def add_formatted_paragraph (line : FormattedLine) (min_left : Int)
    (prev : Option FormattedLine) : Option Paragraph :=
  let text := pyStrip line.text
  if text = [] then none
  else some
    { style := styleOf text line.height_ratio
      space_before := spaceBeforeOf prev line
      left_indent := indentOf line min_left text
      text := runTextOf text
      bold := is_heading_text text line.height_ratio
      font_size := fontSizeOf text line }

/-- One element of the emitted document: a formatted paragraph, the
placeholder paragraph of `build_docx_bytes_from_image` for an empty OCR
result, the per-page placeholder paragraph of `build_docx_bytes_from_images`
(carrying the 1-based page number computed from `paths.index(path) + 1`), or
an explicit page break. -/
inductive DocElem where
  | para (p : Paragraph)
  | emptyResultPara
  | emptyPagePara (n : Nat)
  | pageBreak
deriving DecidableEq

/-- Model of `min(l["left"] for l in lines)` (0 for an empty list; the source only
evaluates it on a nonempty list). -/
def minLeftOf (ls : List FormattedLine) : Int :=
  match ls with
  | [] => 0
  | l :: rest => rest.foldl (fun acc x => min acc x.left) l.left

/-- The emission loop shared by both builders: walk the lines in order,
emit the paragraph of each line (if any) and advance the previous-line
state. -/
def emitLines (min_left : Int) : Option FormattedLine → List FormattedLine → List DocElem
  | _, [] => []
  | prev, l :: rest =>
      (match add_formatted_paragraph l min_left prev with
       | some p => [DocElem.para p]
       | none => []) ++ emitLines min_left (some l) rest

/-- Model of `build_docx_bytes_from_image`, from the OCR word records on: extract the
lines; an empty result gives one placeholder paragraph, otherwise the lines
are emitted in order with `min_left` computed over the page. -/
def build_docx_bytes_from_image (ws : List RawWord) : List DocElem :=
  let lines := extract_lines_with_format ws
  if lines = [] then [DocElem.emptyResultPara]
  else emitLines (minLeftOf lines) none lines

/-- One input page of `build_docx_bytes_from_images`: an opaque path
identifier plus the OCR word records of the image behind it. -/
structure PageInput where
  path : Nat
  words : List RawWord
deriving DecidableEq

/-- The per-page body of the loop of `build_docx_bytes_from_images`: a page
with no extracted lines contributes the placeholder paragraph numbered
`paths.index(path) + 1`; any other page contributes its emitted lines. -/
def emitPage (pages : List PageInput) (p : PageInput) : List DocElem :=
  let lines := extract_lines_with_format p.words
  if lines = [] then
    [DocElem.emptyPagePara ((pages.map PageInput.path).indexOf p.path + 1)]
  else emitLines (minLeftOf lines) none lines

/-- The page loop of `build_docx_bytes_from_images`: a page break is added
before every page except the first (the `first` flag), then the page body. -/
def buildLoop (pages : List PageInput) : Bool → List PageInput → List DocElem
  | _, [] => []
  | first, p :: rest =>
      (if first then [] else [DocElem.pageBreak]) ++ emitPage pages p ++
        buildLoop pages false rest

/-- Model of `build_docx_bytes_from_images`, from the OCR word records on. -/
def build_docx_bytes_from_images (pages : List PageInput) : List DocElem :=
  buildLoop pages true pages

/-- Classification with the check order of `_is_bullet_or_numbered`
(bullet first), on already stripped text. -/
def classifyBulletFirst (t : PyStr) : TextClass :=
  if bullet_start t then TextClass.bullet
  else if numbered_start t then TextClass.number
  else TextClass.plain

/-- The same two predicates checked in the opposite order (numbered first),
on already stripped text. -/
def classifyNumberedFirst (t : PyStr) : TextClass :=
  if numbered_start t then TextClass.number
  else if bullet_start t then TextClass.bullet
  else TextClass.plain

/-- Modelled from the claim wording for the assembler: the separator placed
between two consecutive sorted words, then the texts joined with the
separators in between and nothing before the first word. -/
def specJoinTail (h : Int) : WordData → List WordData → PyStr
  | _, [] => []
  | w, v :: rest => sepFor h (w.left + w.width) v.left ++ v.text ++ specJoinTail h v rest

/-- Modelled from the claim wording for the assembler: sort the words
ascending by left, join them with the per-gap separators, and trim. -/
def specAssemble (acc : LineAcc) : PyStr :=
  match sortWordsByLeft acc.words with
  | [] => []
  | w :: rest => pyStrip (w.text ++ specJoinTail acc.height w rest)

/-- Support definition for the assembler proof: the text produced by the
joining loop after the first word, given the running right edge. -/
def joinFromPr (h : Int) : Int → List WordData → PyStr
  | _, [] => []
  | pr, v :: rest => sepFor h pr v.left ++ v.text ++ joinFromPr h (v.left + v.width) rest

/-- Modelled from the claim wording for the page invariant: page segments
separated by single page breaks. -/
def specPagesJoined : List (List DocElem) → List DocElem
  | [] => []
  | [s] => s
  | s :: t :: rest => s ++ DocElem.pageBreak :: specPagesJoined (t :: rest)

/-- The clamp function named by the spec: `clamp(x, lo, hi)`. -/
def clamp (x lo hi : ℚ) : ℚ := max lo (min hi x)

/-- Demo input: the two words of the concrete assembler scenario. -/
def demoHelloWords : List RawWord :=
  [⟨"Hello".toList, 90, 1, 1, 1, 0, 0, 50, 20⟩,
   ⟨"World".toList, 90, 1, 1, 1, 200, 0, 50, 20⟩]

/-- Demo value: the line extracted from `demoHelloWords`. -/
def demoHelloLine : FormattedLine :=
  ⟨"Hello  World".toList, 0, 0, 20, 250, 20, 1⟩

/-- Demo input: a page of five one-word lines with heights
`[10, 10, 10, 10, 100]`; the tall line carries 101 characters of text. -/
def demoPageWords : List RawWord :=
  [⟨['a'], 90, 1, 1, 1, 0, 0, 30, 10⟩,
   ⟨['a'], 90, 1, 1, 2, 0, 20, 30, 10⟩,
   ⟨['a'], 90, 1, 1, 3, 0, 40, 30, 10⟩,
   ⟨['a'], 90, 1, 1, 4, 0, 60, 30, 10⟩,
   ⟨List.replicate 101 'A', 90, 1, 1, 5, 0, 80, 900, 100⟩]

/-- Demo line used as a previous line in the spacing witness. -/
def demoPrevLine : FormattedLine := ⟨['a'], 0, 0, 10, 10, 10, 1⟩

/-- Demo line at vertical gap 10 below `demoPrevLine`. -/
def demoGapLine1 : FormattedLine := ⟨['b'], 0, 20, 10, 10, 10, 1⟩

/-- Demo line at vertical gap 20 below `demoPrevLine`. -/
def demoGapLine2 : FormattedLine := ⟨['b'], 0, 30, 10, 10, 10, 1⟩

/-- Demo line: a tall short all-caps line (height ratio 3). -/
def demoHeadLine : FormattedLine := ⟨"TITLE".toList, 0, 0, 30, 100, 10, 3⟩

/-- Demo value: the paragraph emitted for `demoHeadLine`. -/
def demoHeadPara : Paragraph :=
  ⟨ParaStyle.heading2, none, none, "TITLE".toList, true, 12⟩

/-- Demo input: a two-page run whose second page has no OCR words. -/
def demoPages : List PageInput := [⟨1, demoHelloWords⟩, ⟨2, []⟩]

end DocxService

namespace DocxTextService

/-- Core of `_is_numbered` from `docx_text_service.py`, on already stripped
text: empty is refused; a leading digit followed by `.`, `)` or a space, or
two leading digits followed by one of those, is accepted. -/
def is_numbered_core (t : PyStr) : Bool :=
  match t with
  | [] => false
  | c0 :: rest =>
      if c0.isDigit then
        match rest with
        | [] => false
        | c1 :: rest2 =>
            if c1 = '.' || c1 = ')' || c1 = ' ' then true
            else
              match rest2 with
              | [] => false
              | c2 :: _ => c1.isDigit && (c2 = '.' || c2 = ')' || c2 = ' ')
      else false

/-- Model of `_is_numbered(line)`: strip, then the core predicate. -/
def is_numbered (s : PyStr) : Bool := is_numbered_core (pyStrip s)

/-- Core of `_is_bullet` from `docx_text_service.py`, on already stripped
text: `startswith(("-", "•", "·", "*"))`. -/
def is_bullet_core (t : PyStr) : Bool :=
  match t with
  | [] => false
  | c :: _ => c = '-' || c = '•' || c = '·' || c = '*'

/-- Model of `_is_bullet(line)`: strip, then the core predicate. -/
def is_bullet (s : PyStr) : Bool := is_bullet_core (pyStrip s)

/-- Classification with the check order of `build_docx_bytes_from_text`
(numbered first). -/
def classifyNumberedFirst (s : PyStr) : TextClass :=
  if is_numbered s then TextClass.number
  else if is_bullet s then TextClass.bullet
  else TextClass.plain

/-- The same two predicates checked in the opposite order (bullet first). -/
def classifyBulletFirst (s : PyStr) : TextClass :=
  if is_bullet s then TextClass.bullet
  else if is_numbered s then TextClass.number
  else TextClass.plain

end DocxTextService

end SmartOCR

namespace SmartOCR

open DocxService

attribute [local semireducible] Rat.add Rat.mul Rat.inv Rat.sub

/-- A head character that fails `Char.isDigit` makes the service numbered
predicate false, whatever follows. -/
theorem numbered_start_false_of_not_digit (c : Char) (cs : PyStr)
    (hd : c.isDigit = false) : numbered_start (c :: cs) = false := by
  cases cs with
  | nil => rfl
  | cons c1 r => simp [numbered_start, hd]

/-- A head character that fails `Char.isDigit` makes the text-service
numbered predicate false, whatever follows. -/
theorem txt_numbered_false_of_not_digit (c : Char) (cs : PyStr)
    (hd : c.isDigit = false) : DocxTextService.is_numbered_core (c :: cs) = false := by
  simp [DocxTextService.is_numbered_core, hd]

/-- A text accepted by the service bullet predicate is refused by the
service numbered predicate: no bullet glyph is a digit. -/
theorem bullet_excludes_numbered (t : PyStr) (h : bullet_start t = true) :
    numbered_start t = false := by
  cases t with
  | nil => simp [bullet_start] at h
  | cons c cs =>
      simp only [bullet_start, Bool.or_eq_true, decide_eq_true_eq, or_assoc] at h
      rcases h with rfl | rfl | rfl | rfl | rfl | rfl | rfl <;>
        exact numbered_start_false_of_not_digit _ _ (by decide)

/-- A text accepted by the text-service bullet predicate is refused by the
text-service numbered predicate. -/
theorem txt_bullet_excludes_numbered (t : PyStr)
    (h : DocxTextService.is_bullet_core t = true) :
    DocxTextService.is_numbered_core t = false := by
  cases t with
  | nil => simp [DocxTextService.is_bullet_core] at h
  | cons c cs =>
      simp only [DocxTextService.is_bullet_core, Bool.or_eq_true,
        decide_eq_true_eq, or_assoc] at h
      rcases h with rfl | rfl | rfl | rfl <;>
        exact txt_numbered_false_of_not_digit _ _ (by decide)

/-- C10: the bullet predicate and the numbered predicate are never both
true, in either service, so the two check orders (bullet first in
`docx_service._is_bullet_or_numbered`, numbered first in
`docx_text_service.build_docx_bytes_from_text`) classify every string the
same way. -/
theorem bullet_numbered_order_independent (s : PyStr) :
    (bullet_start (pyStrip s) && numbered_start (pyStrip s)) = false ∧
    (DocxTextService.is_bullet s && DocxTextService.is_numbered s) = false ∧
    classifyBulletFirst (pyStrip s) = classifyNumberedFirst (pyStrip s) ∧
    DocxTextService.classifyNumberedFirst s = DocxTextService.classifyBulletFirst s := by
  refine ⟨?_, ?_, ?_, ?_⟩
  · cases hb : bullet_start (pyStrip s) with
    | false => rfl
    | true => simp [bullet_excludes_numbered _ hb]
  · cases hb : DocxTextService.is_bullet s with
    | false => rfl
    | true =>
        have := txt_bullet_excludes_numbered (pyStrip s) hb
        simp [DocxTextService.is_numbered, this]
  · cases hb : bullet_start (pyStrip s) with
    | false => simp [classifyBulletFirst, classifyNumberedFirst, hb]
    | true =>
        have hn := bullet_excludes_numbered _ hb
        simp [classifyBulletFirst, classifyNumberedFirst, hb, hn]
  · cases hb : DocxTextService.is_bullet s with
    | false =>
        simp [DocxTextService.classifyNumberedFirst,
          DocxTextService.classifyBulletFirst, hb]
    | true =>
        have hn : DocxTextService.is_numbered s = false := by
          have := txt_bullet_excludes_numbered (pyStrip s) hb
          simpa [DocxTextService.is_numbered] using this
        simp [DocxTextService.classifyNumberedFirst,
          DocxTextService.classifyBulletFirst, hb, hn]

/-- C5: `"1) Buy milk"` classifies as a numbered list item, `"• Buy milk"`
and `"- Buy milk"` as bullet list items, and any text whose stripped form
starts with a bullet glyph classifies as bullet (the bullet branch is
checked first), so a leading dash is always bullet. -/
theorem list_marker_classification :
    is_bullet_or_numbered ("1) Buy milk".toList) = (true, numberKind) ∧
    is_bullet_or_numbered ("• Buy milk".toList) = (true, bulletKind) ∧
    is_bullet_or_numbered ("- Buy milk".toList) = (true, bulletKind) ∧
    ∀ s : PyStr, bullet_start (pyStrip s) = true →
      is_bullet_or_numbered s = (true, bulletKind) := by
  refine ⟨by decide, by decide, by decide, ?_⟩
  intro s h
  simp [is_bullet_or_numbered, h]

/-- Witness for C5: the universally quantified bullet-precedence branch at
a concrete dash-led input. -/
theorem list_marker_classification_witness :
    is_bullet_or_numbered ("- Olives".toList) = (true, bulletKind) :=
  list_marker_classification.2.2.2 ("- Olives".toList) (by decide)

/-- C7: every line of every extracted page has
`height_ratio = height / median_height` when the median is positive and
`height_ratio = 1` when the median is zero (the guarded branch of
`_extract_lines_with_format`). -/
theorem height_ratio_guard (ws : List RawWord) (l : FormattedLine)
    (hl : l ∈ extract_lines_with_format ws) :
    (0 < l.median_height →
      l.height_ratio = (l.height : ℚ) / (l.median_height : ℚ)) ∧
    (l.median_height = 0 → l.height_ratio = 1) := by
  unfold extract_lines_with_format sortLines at hl
  have hmem : l ∈ attachMedian (assembleLines (groupWords ws)) :=
    (List.perm_insertionSort lineLe _).mem_iff.mp hl
  unfold attachMedian at hmem
  rcases List.mem_map.mp hmem with ⟨ld, _, rfl⟩
  dsimp only
  constructor
  · intro hpos
    rw [if_pos hpos]
  · intro hzero
    rw [if_neg (by omega)]

/-- Witness for C7 at the line extracted from the concrete two-word page. -/
theorem height_ratio_guard_witness :
    (0 < demoHelloLine.median_height →
      demoHelloLine.height_ratio =
        (demoHelloLine.height : ℚ) / (demoHelloLine.median_height : ℚ)) ∧
    (demoHelloLine.median_height = 0 → demoHelloLine.height_ratio = 1) :=
  height_ratio_guard demoHelloWords demoHelloLine (by decide)

/-- C6: the assigned space-before is monotone in the vertical gap whenever
both gaps lead to an assignment, and a line with no previous line gets no
space-before. -/
theorem spacing_monotone :
    (∀ p1 l1 p2 l2 : FormattedLine, ∀ q1 q2 : ℚ,
      spaceBeforeOf (some p1) l1 = some q1 →
      spaceBeforeOf (some p2) l2 = some q2 →
      l1.top - (p1.top + p1.height) < l2.top - (p2.top + p2.height) →
      q1 ≤ q2) ∧
    (∀ l : FormattedLine, spaceBeforeOf none l = none) := by
  constructor
  · intro p1 l1 p2 l2 q1 q2 h1 h2 hlt
    simp only [spaceBeforeOf] at h1 h2
    split_ifs at h1 h2 with hc1 hc2
    simp_all
    subst h1
    subst h2
    have hg : ((l1.top : ℚ) - ((p1.top : ℚ) + (p1.height : ℚ))) ≤
        ((l2.top : ℚ) - ((p2.top : ℚ) + (p2.height : ℚ))) := by
      exact_mod_cast hlt.le
    gcongr
  · intro l
    rfl

/-- Witness for C6 at gaps 10 and 20 below the same previous line. -/
theorem spacing_monotone_witness :
    (3 : ℚ) ≤ 4 ∧ spaceBeforeOf none demoPrevLine = none :=
  ⟨spacing_monotone.1 demoPrevLine demoGapLine1 demoPrevLine demoGapLine2 3 4
      (by decide) (by decide) (by decide),
   spacing_monotone.2 demoPrevLine⟩

/-- Bridging fact: clamping from above then below equals the spec clamp
when the bounds are ordered. -/
theorem min_max_eq_clamp (y lo hi : ℚ) (h : lo ≤ hi) :
    min hi (max lo y) = clamp y lo hi := by
  unfold clamp
  rcases le_total y lo with h1 | h1 <;> rcases le_total y hi with h2 | h2 <;>
    simp [min_def, max_def] <;> split_ifs <;> linarith

/-- C9: the pixel-to-point mapping is `clamp(px / 300 * 72, 9, 28)`; the
inner clamp composes with the heading boost so that a heading run receives
`clamp(mapped + 2, 12, 18)` and a body run `clamp(mapped, 10, 14)` for every
emitted paragraph. -/
theorem font_size_mapping :
    (∀ px : ℚ, px_to_pt px 300 = clamp (px / 300 * 72) 9 28) ∧
    (∀ x : ℚ, min 18 (max 12 (clamp x 9 28 + 2)) = clamp (x + 2) 12 18) ∧
    (∀ (l : FormattedLine) (m : Int) (prev : Option FormattedLine) (p : Paragraph),
      add_formatted_paragraph l m prev = some p →
      p.font_size =
        if is_heading_text (pyStrip l.text) l.height_ratio then
          clamp (px_to_pt (l.height : ℚ) 300 + 2) 12 18
        else clamp (px_to_pt (l.height : ℚ) 300) 10 14) := by
  refine ⟨fun px => rfl, ?_, ?_⟩
  · intro x
    unfold clamp
    rcases le_total x 7 with h1 | h1 <;> rcases le_total x 26 with h2 | h2 <;>
      simp [min_def, max_def] <;> split_ifs <;> linarith
  · intro l m prev p hp
    simp only [add_formatted_paragraph] at hp
    split_ifs at hp with ht
    injection hp with hp
    subst hp
    dsimp only
    unfold fontSizeOf
    split_ifs with hh
    · exact min_max_eq_clamp _ 12 18 (by norm_num)
    · exact min_max_eq_clamp _ 10 14 (by norm_num)

/-- Witness for C9 at the concrete tall heading line. -/
theorem font_size_mapping_witness :
    demoHeadPara.font_size =
      if is_heading_text (pyStrip demoHeadLine.text) demoHeadLine.height_ratio then
        clamp (px_to_pt (demoHeadLine.height : ℚ) 300 + 2) 12 18
      else clamp (px_to_pt (demoHeadLine.height : ℚ) 300) 10 14 :=
  font_size_mapping.2.2 demoHeadLine 0 none demoHeadPara (by decide)

/-- Counterexample for C1: on the page with line heights
`[10, 10, 10, 10, 100]` the tall line has height ratio 10 (at least 1.5),
yet because its text is 101 characters long `_is_heading_text` classifies
it as not a heading, refuting the claim that the classification holds
regardless of text length. -/
theorem tall_line_not_heading_counterexample :
    (3/2 : ℚ) ≤ 10 ∧
    (extract_lines_with_format demoPageWords).map
        (fun l => (l.height_ratio, is_heading_text l.text l.height_ratio)) =
      [(1, false), (1, false), (1, false), (1, false), (10, false)] :=
  ⟨by norm_num, by decide⟩

/-- C1 (amended): a line whose stripped text is nonempty and at most 100
characters long is classified as a heading whenever its height ratio is at
least 1.5, whatever the remaining content; on the `[10, 10, 10, 10, 100]`
page the median is 10 and the tall line has ratio 10. -/
theorem tall_line_heading_amended :
    (∀ (text : PyStr) (ratio : ℚ), pyStrip text ≠ [] →
      (pyStrip text).length ≤ 100 → (3/2 : ℚ) ≤ ratio →
      is_heading_text text ratio = true) ∧
    medianHeightOf [10, 10, 10, 10, 100] = 10 ∧
    (extract_lines_with_format demoPageWords).map (fun l => l.height_ratio) =
      [1, 1, 1, 1, 10] := by
  refine ⟨?_, by decide, by decide⟩
  intro text ratio h1 h2 h3
  unfold is_heading_text
  rw [if_neg (by push_neg; exact ⟨h1, by omega⟩), if_pos h3]

/-- Witness for C1 (amended) at a short text with ratio 10. -/
theorem tall_line_heading_amended_witness :
    is_heading_text ("PAGE TITLE".toList) 10 = true :=
  tall_line_heading_amended.1 ("PAGE TITLE".toList) 10 (by decide) (by decide)
    (by norm_num)

/-- The claim-side tail join equals the loop-side tail join: the running
right edge after a word is the `left + width` of that word. -/
theorem specJoinTail_eq_joinFromPr (h : Int) :
    ∀ (l : List WordData) (w : WordData),
      specJoinTail h w l = joinFromPr h (w.left + w.width) l := by
  intro l
  induction l with
  | nil => intro w; rfl
  | cons v rest ih =>
      intro w
      simp only [specJoinTail, joinFromPr, ih v]

/-- Unrolling the joining loop from a state with a previous right edge:
the flattened parts grow by the separator-and-text tail. -/
theorem assemble_foldl (h : Int) :
    ∀ (l : List WordData) (parts : List PyStr) (pr : Int),
      ((l.foldl (assembleStep h) (parts, some pr)).1).flatten =
        parts.flatten ++ joinFromPr h pr l := by
  intro l
  induction l with
  | nil =>
      intro parts pr
      simp [joinFromPr]
  | cons v rest ih =>
      intro parts pr
      rw [List.foldl_cons]
      have hstep : assembleStep h (parts, some pr) v =
          (parts ++ [sepFor h pr v.left] ++ [v.text], some (v.left + v.width)) := rfl
      rw [hstep, ih]
      simp [joinFromPr, List.append_assoc]

/-- C2: the line assembler agrees with the claim-side description (sort by
left, separators chosen by the 1.2-line-height gap rule, nothing before the
first word, result trimmed); on the concrete two-word page the assembled
text is `"Hello  World"` with a double space. -/
theorem assembler_gap_separators :
    (∀ acc : LineAcc, (assembleAcc acc).1 = specAssemble acc) ∧
    (extract_lines_with_format demoHelloWords).map (fun l => l.text) =
      ["Hello  World".toList] := by
  refine ⟨?_, by decide⟩
  intro acc
  unfold assembleAcc specAssemble
  cases hs : sortWordsByLeft acc.words with
  | nil => rfl
  | cons w rest =>
      have hstep : assembleStep acc.height ([], none) w =
          ([w.text], some (w.left + w.width)) := rfl
      rw [List.foldl_cons, hstep]
      dsimp only
      rw [assemble_foldl acc.height rest [w.text] (w.left + w.width),
        specJoinTail_eq_joinFromPr acc.height rest w]
      simp

/-- C3: the extracted lines of a page are sorted by `(top, left)`
ascending, so for any two positions `i < j` in the emitted order the line
at `i` precedes the line at `j` in the `(top, left)` order: a strictly
smaller top comes first, and at equal tops a smaller left comes first. -/
theorem lines_emitted_in_order (ws : List RawWord) :
    List.Sorted lineLe (extract_lines_with_format ws) ∧
    ∀ (i j : Nat) (hi : i < (extract_lines_with_format ws).length)
      (hj : j < (extract_lines_with_format ws).length), i < j →
      lineLe ((extract_lines_with_format ws).get ⟨i, hi⟩)
        ((extract_lines_with_format ws).get ⟨j, hj⟩) := by
  have hs : List.Sorted lineLe (extract_lines_with_format ws) := by
    unfold extract_lines_with_format sortLines
    exact List.sorted_insertionSort lineLe _
  refine ⟨hs, ?_⟩
  intro i j hi hj hij
  exact List.pairwise_iff_get.mp hs ⟨i, hi⟩ ⟨j, hj⟩ hij

/-- Witness for C3 on the five-line demo page, at positions 0 and 4. -/
theorem lines_emitted_in_order_witness :
    lineLe ((extract_lines_with_format demoPageWords).get ⟨0, by decide⟩)
      ((extract_lines_with_format demoPageWords).get ⟨4, by decide⟩) :=
  (lines_emitted_in_order demoPageWords).2 0 4 (by decide) (by decide)
    (by decide)

/-- One cons step of the dict lookup. -/
theorem lookupAcc_cons (k0 : HKey) (acc : LineAcc) (rest : List (HKey × LineAcc))
    (k : HKey) :
    lookupAcc ((k0, acc) :: rest) k = if k0 = k then some acc else lookupAcc rest k := rfl

/-- One cons step of the stored-words lookup. -/
theorem wordsOf_cons (k0 : HKey) (acc : LineAcc) (rest : List (HKey × LineAcc))
    (k : HKey) :
    wordsOf ((k0, acc) :: rest) k = if k0 = k then acc.words else wordsOf rest k := by
  unfold wordsOf
  rw [lookupAcc_cons]
  split_ifs <;> rfl

/-- The unseen-key step of `addWord`. -/
theorem addWord_nil (k : HKey) (wd : WordData) :
    addWord [] k wd = [(k, ⟨[wd], wd.left, wd.top, wd.height⟩)] := rfl

/-- The cons step of `addWord`. -/
theorem addWord_cons (k0 : HKey) (acc : LineAcc) (rest : List (HKey × LineAcc))
    (k : HKey) (wd : WordData) :
    addWord ((k0, acc) :: rest) k wd =
      if k0 = k then
        (k0, ⟨acc.words ++ [wd], min acc.left wd.left, min acc.top wd.top,
              max acc.height wd.height⟩) :: rest
      else (k0, acc) :: addWord rest k wd := rfl

/-- Adding a word under key `k` appends it to the word list stored at `k`. -/
theorem wordsOf_addWord_self (d : List (HKey × LineAcc)) (k : HKey) (wd : WordData) :
    wordsOf (addWord d k wd) k = wordsOf d k ++ [wd] := by
  induction d with
  | nil =>
      rw [addWord_nil, wordsOf_cons, if_pos rfl]
      rfl
  | cons kv rest ih =>
      obtain ⟨k0, acc⟩ := kv
      by_cases hk : k0 = k
      · subst hk
        rw [addWord_cons, if_pos rfl, wordsOf_cons, if_pos rfl,
          wordsOf_cons, if_pos rfl]
      · rw [addWord_cons, if_neg hk, wordsOf_cons, if_neg hk,
          wordsOf_cons, if_neg hk]
        exact ih

/-- Adding a word under key `k` leaves every other key untouched. -/
theorem wordsOf_addWord_ne (d : List (HKey × LineAcc)) (k k' : HKey)
    (wd : WordData) (h : k' ≠ k) :
    wordsOf (addWord d k wd) k' = wordsOf d k' := by
  induction d with
  | nil =>
      rw [addWord_nil, wordsOf_cons, if_neg (fun hh => h hh.symm)]
  | cons kv rest ih =>
      obtain ⟨k0, acc⟩ := kv
      by_cases hk : k0 = k
      · subst hk
        rw [addWord_cons, if_pos rfl, wordsOf_cons,
          if_neg (fun hh => h hh.symm), wordsOf_cons,
          if_neg (fun hh => h hh.symm)]
      · rw [addWord_cons, if_neg hk, wordsOf_cons, wordsOf_cons]
        by_cases hk' : k0 = k'
        · rw [if_pos hk', if_pos hk']
        · rw [if_neg hk', if_neg hk']
          exact ih

/-- Unrolling the grouping fold: the words stored under `k` are the
starting contents plus, in input order, the surviving words whose key is
`k`. -/
theorem wordsOf_groupFold :
    ∀ (ws : List RawWord) (d : List (HKey × LineAcc)) (k : HKey),
      wordsOf (ws.foldl groupStep d) k =
        wordsOf d k ++
          (((ws.filter keepWord).filter fun w => decide (rawKey w = k)).map mkWordData) := by
  intro ws
  induction ws with
  | nil =>
      intro d k
      simp
  | cons w rest ih =>
      intro d k
      rw [List.foldl_cons]
      by_cases hkeep : pyStrip w.text = [] ∨ w.conf < 0
      · have h1 : groupStep d w = d := by simp [groupStep, hkeep]
        have h2 : keepWord w = false := by simp [keepWord, hkeep]
        rw [h1, ih]
        simp [List.filter_cons, h2]
      · have h1 : groupStep d w = addWord d (rawKey w) (mkWordData w) := by
          simp [groupStep, hkeep]
        have h2 : keepWord w = true := by simp [keepWord, hkeep]
        by_cases hk : rawKey w = k
        · subst hk
          rw [h1, ih, wordsOf_addWord_self]
          simp [List.filter_cons, h2, List.append_assoc]
        · rw [h1, ih, wordsOf_addWord_ne d (rawKey w) k (mkWordData w)
            (fun hh => hk hh.symm)]
          simp [List.filter_cons, h2, hk]

/-- One cons step of the key column. -/
theorem keysOf_cons (k0 : HKey) (acc : LineAcc) (rest : List (HKey × LineAcc)) :
    keysOf ((k0, acc) :: rest) = k0 :: keysOf rest := rfl

/-- Adding a word either reuses an existing key or appends the new key at
the end of the key column. -/
theorem keysOf_addWord (d : List (HKey × LineAcc)) (k : HKey) (wd : WordData) :
    keysOf (addWord d k wd) =
      if k ∈ keysOf d then keysOf d else keysOf d ++ [k] := by
  induction d with
  | nil =>
      rw [addWord_nil]
      simp [keysOf]
  | cons kv rest ih =>
      obtain ⟨k0, acc⟩ := kv
      by_cases hk : k0 = k
      · subst hk
        rw [addWord_cons, if_pos rfl, keysOf_cons, keysOf_cons,
          if_pos (List.mem_cons_self k0 _)]
      · have hkk : ¬ k = k0 := fun hh => hk hh.symm
        rw [addWord_cons, if_neg hk, keysOf_cons, ih, keysOf_cons]
        simp only [List.mem_cons, hkk, false_or]
        by_cases hmem : k ∈ keysOf rest
        · rw [if_pos hmem, if_pos hmem]
        · rw [if_neg hmem, if_neg hmem]
          rfl

/-- Adding a word preserves distinctness of the keys of `lines_dict`. -/
theorem keys_nodup_addWord (d : List (HKey × LineAcc)) (k : HKey) (wd : WordData)
    (h : (keysOf d).Nodup) : (keysOf (addWord d k wd)).Nodup := by
  rw [keysOf_addWord]
  split_ifs with hmem
  · exact h
  · rw [List.nodup_append]
    refine ⟨h, List.nodup_singleton _, ?_⟩
    intro a ha hab
    rw [List.mem_singleton] at hab
    subst hab
    exact hmem ha

/-- The grouping fold preserves distinctness of the keys of `lines_dict`. -/
theorem keys_nodup_groupFold :
    ∀ (ws : List RawWord) (d : List (HKey × LineAcc)),
      (keysOf d).Nodup → (keysOf (ws.foldl groupStep d)).Nodup := by
  intro ws
  induction ws with
  | nil => intro d h; simpa using h
  | cons w rest ih =>
      intro d h
      rw [List.foldl_cons]
      apply ih
      unfold groupStep
      split_ifs
      · exact h
      · exact keys_nodup_addWord d (rawKey w) (mkWordData w) h

/-- C8: grouping discards exactly the records with empty stripped text or
negative confidence, and stores every surviving word in exactly one line,
namely the line of its hierarchy key (the keys of the grouping are
pairwise distinct, and the words stored under key `k` are precisely the
surviving input words with key `k`, in input order). -/
theorem word_filter_grouping (ws : List RawWord) (k : HKey) :
    wordsOf (groupWords ws) k =
      (((ws.filter keepWord).filter fun w => decide (rawKey w = k)).map mkWordData) ∧
    (keysOf (groupWords ws)).Nodup := by
  constructor
  · have h := wordsOf_groupFold ws [] k
    simpa [groupWords, wordsOf, lookupAcc] using h
  · exact keys_nodup_groupFold ws [] (by simp [keysOf])

/-- The line-emission loop never emits a page break. -/
theorem pageBreak_not_mem_emitLines (m : Int) :
    ∀ (ls : List FormattedLine) (prev : Option FormattedLine),
      DocElem.pageBreak ∉ emitLines m prev ls := by
  intro ls
  induction ls with
  | nil =>
      intro prev
      simp [emitLines]
  | cons l rest ih =>
      intro prev
      cases h : add_formatted_paragraph l m prev with
      | none => simpa [emitLines, h] using ih (some l)
      | some p => simp [emitLines, h, ih (some l)]

/-- A page body never contains a page break. -/
theorem pageBreak_not_mem_emitPage (pages : List PageInput) (p : PageInput) :
    DocElem.pageBreak ∉ emitPage pages p := by
  simp only [emitPage]
  split_ifs with h
  · simp
  · exact pageBreak_not_mem_emitLines _ _ _

/-- The page loop with the `first` flag already consumed prefixes every
remaining page body with one page break. -/
theorem buildLoop_false_eq (pages : List PageInput) :
    ∀ ps : List PageInput,
      buildLoop pages false ps =
        (ps.map fun p => DocElem.pageBreak :: emitPage pages p).flatten := by
  intro ps
  induction ps with
  | nil => rfl
  | cons p rest ih =>
      simp [buildLoop, ih]

/-- The claim-side segment join, unfolded at a leading segment. -/
theorem specPagesJoined_cons (s : List DocElem) :
    ∀ ss : List (List DocElem),
      specPagesJoined (s :: ss) =
        s ++ (ss.map fun t => DocElem.pageBreak :: t).flatten := by
  intro ss
  induction ss generalizing s with
  | nil => simp [specPagesJoined]
  | cons t rest ih =>
      simp [specPagesJoined, ih t]

/-- The page loop with the `first` flag already consumed contains exactly
one page break per remaining page. -/
theorem count_buildLoop_false (pages : List PageInput) :
    ∀ ps : List PageInput,
      List.count DocElem.pageBreak (buildLoop pages false ps) = ps.length := by
  intro ps
  induction ps with
  | nil => rfl
  | cons p rest ih =>
      have h0 : List.count DocElem.pageBreak (emitPage pages p) = 0 :=
        List.count_eq_zero.mpr (pageBreak_not_mem_emitPage pages p)
      simp [buildLoop, List.count_append, h0, ih]

/-- C4: the multi-image builder produces the page bodies joined by single
page breaks: one break before every page except the first, `N - 1` breaks
for `N` pages, no break inside any page body, and a page with no extracted
lines contributes exactly one placeholder paragraph (carrying its 1-based
page number) instead of being skipped. -/
theorem page_count_invariant (pages : List PageInput) :
    build_docx_bytes_from_images pages =
      specPagesJoined (pages.map (emitPage pages)) ∧
    (pages.map (emitPage pages)).length = pages.length ∧
    (∀ p ∈ pages, DocElem.pageBreak ∉ emitPage pages p) ∧
    List.count DocElem.pageBreak (build_docx_bytes_from_images pages) =
      pages.length - 1 ∧
    (∀ p ∈ pages, extract_lines_with_format p.words = [] →
      emitPage pages p =
        [DocElem.emptyPagePara ((pages.map PageInput.path).indexOf p.path + 1)]) := by
  refine ⟨?_, by simp, fun p _ => pageBreak_not_mem_emitPage pages p, ?_, ?_⟩
  · cases pages with
    | nil => rfl
    | cons p rest =>
        show (if True = True then ([] : List DocElem) else [DocElem.pageBreak]) ++
            emitPage (p :: rest) p ++ buildLoop (p :: rest) false rest = _
        rw [if_pos rfl, List.nil_append, buildLoop_false_eq (p :: rest) rest,
          List.map_cons, specPagesJoined_cons]
        simp only [List.map_map]
        rfl
  · cases pages with
    | nil => rfl
    | cons p rest =>
        have h0 : List.count DocElem.pageBreak (emitPage (p :: rest) p) = 0 :=
          List.count_eq_zero.mpr (pageBreak_not_mem_emitPage (p :: rest) p)
        show List.count DocElem.pageBreak
            ((if True = True then ([] : List DocElem) else [DocElem.pageBreak]) ++
              emitPage (p :: rest) p ++ buildLoop (p :: rest) false rest) = _
        rw [if_pos rfl, List.nil_append]
        simp [List.count_append, h0, count_buildLoop_false (p :: rest) rest]
  · intro p _ hempty
    simp [emitPage, hempty]

/-- Witness for C4 on the two-page demo run whose second page is empty. -/
theorem page_count_invariant_witness :
    List.count DocElem.pageBreak (build_docx_bytes_from_images demoPages) = 1 ∧
    emitPage demoPages ⟨2, []⟩ = [DocElem.emptyPagePara 2] := by
  constructor
  · have h := (page_count_invariant demoPages).2.2.2.1
    simpa using h
  · have h := (page_count_invariant demoPages).2.2.2.2 ⟨2, []⟩ (by decide) (by decide)
    simpa using h

end SmartOCR
